import Mathlib

/-!
Shallow embedding of the EJDB HTTP/WebSocket gateway (`src/jbr/jbr.c`).

Strings from the wire are modelled as `List Char`; machine integers as
`Int` with explicit clamping where the C library clamps (`strtoll`).
Side effects of a request handler are modelled as a list of events
(`Ev`): full responses sent through `http_send_body`, the chunked header
block written by `http_write_headers`, raw socket writes done with
`fio_write`, the terminal `http_complete`, and error logging.
Fallible socket writes consult an oracle `wok : Nat -> Bool` indexed by
a running write counter.
-/

namespace Jbr

/-- `JBR_HTTP_CHUNK_SIZE` from jbr.c. -/
def JBR_HTTP_CHUNK_SIZE : Nat := 4096

/-- `JBNUMBUF_SIZE` (numeric conversion buffer size) from the iowow
dependency's `iwconv.h` (not part of this repository): 32 bytes. -/
def JBNUMBUF_SIZE : Nat := 32

/-- Modelled from the spec: `EJDB_COLLECTION_NAME_MAX_LEN` is declared in
`ejdb2_internal.h`, which is not under `src/`; the spec gives the
collection-name maximum as 128 (default). -/
def EJDB_COLLECTION_NAME_MAX_LEN : Nat := 128

/-- `jbr_method_t` from jbr.c (JBR_GET=1 .. JBR_HEAD=6). -/
inductive JbrMethod where
  | get
  | put
  | patch
  | delete
  | post
  | head
deriving Repr, DecidableEq

/-- The per-request fields of `JBRCTX` filled by `_jbr_fill_ctx`:
`collection = none` models a NULL `collection` pointer, `id = 0` means
"no id in the URL". -/
structure ReqCtx where
  method : JbrMethod
  collection : Option (List Char)
  id : Int
deriving Repr, DecidableEq

/-- The method-string switch of `_jbr_fill_ctx` (switch on length, then
`strncmp` over exactly `method.len` bytes, which is full equality). -/
def parseMethod (m : String) : Option JbrMethod :=
  match m.length with
  | 3 => if m = "GET" then some .get else if m = "PUT" then some .put else none
  | 4 => if m = "POST" then some .post else if m = "HEAD" then some .head else none
  | 5 => if m = "PATCH" then some .patch else none
  | 6 => if m = "DELETE" then some .delete else none
  | _ => none

/-- The whitespace class of C `isspace` in the POSIX locale. -/
def isCSpace (c : Char) : Bool :=
  c = ' ' ∨ c = '\t' ∨ c = '\n' ∨ c = '\x0b' ∨ c = '\x0c' ∨ c = '\r'

def isCDigit (c : Char) : Bool := '0' ≤ c ∧ c ≤ '9'

def LLONG_MAX : Int := 2 ^ 63 - 1
def LLONG_MIN : Int := -(2 ^ 63)

/-- Decimal digit-list value. -/
def digitsVal (ds : List Char) : Nat :=
  ds.foldl (fun a c => a * 10 + (c.toNat - '0'.toNat)) 0

/-- C `strtoll(s, &eptr, 10)`: skip `isspace`, optional sign, decimal
digits, clamping to the `long long` range on overflow.  Returns the
value together with the remainder starting at `eptr`; if no digits were
consumed, `eptr` is the original pointer (the whole input is returned
as remainder). -/
def strtoll (s : List Char) : Int × List Char :=
  let t := s.dropWhile isCSpace
  let (neg, u) :=
    match t with
    | '-' :: r => (true, r)
    | '+' :: r => (false, r)
    | _ => (false, t)
  let ds := u.takeWhile isCDigit
  if ds = [] then (0, s)
  else
    let v : Int := (digitsVal ds : Nat)
    let v := if neg then -v else v
    let v := if v > LLONG_MAX then LLONG_MAX else if v < LLONG_MIN then LLONG_MIN else v
    (v, u.dropWhile isCDigit)

/-- C `strchr`: index of the first occurrence of `t`. -/
def strchrIdx : List Char → Char → Option Nat
  | [], _ => none
  | c :: cs, t => if c = t then some 0 else (strchrIdx cs t).map (· + 1)

/-- Index of the first `'/'` at position ≥ 1 (C: `strchr(path.data + 1, '/')`). -/
def findSlashFrom1 (p : List Char) : Option Nat :=
  (strchrIdx (p.drop 1) '/').map (· + 1)

/-- The path-grammar part of `_jbr_fill_ctx`, after the method has been
recognized; `none` models returning `false` (the caller replies 400). -/
def fillCtxPath (m : JbrMethod) (p : List Char) : Option ReqCtx :=
  if p = ['/'] then some ⟨m, none, 0⟩
    else if p.length < 2 then none
    else
      match findSlashFrom1 p with
      | none =>
        -- no second '/': bare "/collection"
        match m with
        | .get | .head | .put | .delete | .patch => none
        | _ =>
          let coll := p.drop 1
          if coll.length ≤ EJDB_COLLECTION_NAME_MAX_LEN then some ⟨m, some coll, 0⟩
          else none
      | some i =>
        let coll := (p.drop 1).take (i - 1)
        let nlen := p.length - i - 1
        if nlen < 1 then
          -- empty id component: fall to `finish` with id still 0
          if coll.length ≤ EJDB_COLLECTION_NAME_MAX_LEN then some ⟨m, some coll, 0⟩
          else none
        else if nlen > JBNUMBUF_SIZE - 1 then none
        else
          let nbuf := p.drop (i + 1)
          let (v, rest) := strtoll nbuf
          if rest ≠ [] ∨ v < 1 ∨ m = .post then none
          else if coll.length ≤ EJDB_COLLECTION_NAME_MAX_LEN then some ⟨m, some coll, v⟩
          else none

/-- `_jbr_fill_ctx`: recognize the method, then parse the URL path. -/
def fillCtx (mstr pstr : String) : Option ReqCtx :=
  match parseMethod mstr with
  | none => none
  | some m => fillCtxPath m pstr.toList

/-- The `X-Access-Token` header as seen through
`fiobj_hash_get2`/`fiobj_type_is`: absent, a single string value, or a
non-string fiobj (the header occurred more than once). -/
inductive HeaderVal where
  | missing
  | single (v : List Char)
  | multi
deriving Repr, DecidableEq

/-- Gateway server configuration relevant to the token gate
(`EJDB_HTTP.access_token` / `.read_anon`). -/
structure HttpCfg where
  accessToken : Option (List Char)
  readAnon : Bool
deriving Repr, DecidableEq

inductive GateResult where
  | proceed (readAnon : Bool)
  | reject (status : Nat)
deriving Repr, DecidableEq

/-- The anonymous-eligible class tested by `_jbr_on_http_request`:
GET, HEAD, or POST with a NULL collection (root query). -/
def anonEligible (ctx : ReqCtx) : Bool :=
  ctx.method = .get ∨ ctx.method = .head ∨ (ctx.method = .post ∧ ctx.collection = none)

/-- The token-gate block of `_jbr_on_http_request` (lines 585-606):
run after `_jbr_fill_ctx` succeeded.  The value comparison is the C
`hv.len != http->access_token_len || memcmp(hv.data, http->access_token,
http->access_token_len)`. -/
def tokenGate (cfg : HttpCfg) (ctx : ReqCtx) (hdr : HeaderVal) : GateResult :=
  match cfg.accessToken with
  | none => .proceed false
  | some tok =>
    match hdr with
    | .missing =>
      if cfg.readAnon ∧ anonEligible ctx then .proceed true
      else .reject 401
    | .multi => .reject 400
    | .single v =>
      if v.length ≠ tok.length ∨ v.take tok.length ≠ tok.take tok.length then .reject 403
      else .proceed false

/-- Routing skeleton of `_jbr_on_http_request`: a `_jbr_fill_ctx`
failure is a 400, then the token gate runs, then the dispatch switch
(any non-POST request without a collection is a 400). -/
inductive Routed where
  | err (status : Nat)
  | handled (ctx : ReqCtx) (readAnon : Bool)
deriving Repr, DecidableEq

def routeRequest (cfg : HttpCfg) (mstr pstr : String) (hdr : HeaderVal) : Routed :=
  match fillCtx mstr pstr with
  | none => .err 400
  | some ctx =>
    match tokenGate cfg ctx hdr with
    | .reject s => .err s
    | .proceed ra =>
      match ctx.collection with
      | some _ => .handled ctx ra
      | none => if ctx.method = .post then .handled ctx ra else .err 400

/-! ## Response events

A request handler's observable effects, in order.  `send` is
`_jbr_http_send` / `http_send_error` (a full status-bearing response:
`http_send_body` derives `Content-Length` from `blen`); `writeHeaders`
is the `http_write_headers` call of `_jbr_flush_chunk` (which forces
status 200, `Content-Type: application/json` and
`Transfer-Encoding: chunked`); `fioWrite` is a raw `fio_write`;
`complete` is `http_complete`; `logError` is `iwlog_ecode_error3`. -/

inductive Ev where
  | send (status : Nat) (ctype : Option String) (body : List Char) (blen : Nat)
  | writeHeaders
  | fioWrite (bytes : List Char)
  | complete
  | logError
deriving Repr, DecidableEq

def isSendEv : Ev → Bool
  | .send .. => true
  | _ => false

def isHdrEv : Ev → Bool
  | .writeHeaders => true
  | _ => false

/-- Concatenation of all raw socket writes in a trace. -/
def socketBytes : List Ev → List Char
  | [] => []
  | Ev.fioWrite b :: tl => b ++ socketBytes tl
  | _ :: tl => socketBytes tl

/-- Statuses of the full responses sent in a trace. -/
def sentStatuses (evs : List Ev) : List Nat :=
  evs.filterMap (fun e => match e with | .send s _ _ _ => some s | _ => none)

/-- A write oracle under which every socket write succeeds. -/
def allOk : Nat → Bool := fun _ => true

def crlf : List Char := ['\r', '\n']
def zeroChunk : List Char := "0\r\n\r\n".toList
def sepLine : List Char := "--------------------".toList
def explainLit : List Char := "explain".toList

/-- The mutable per-request state of `JBRCTX` used on the query path. -/
structure QCtx where
  readAnon : Bool
  dataSent : Bool
  wbuf : Option (List Char)
  explain : Option (List Char)
deriving Repr, DecidableEq

/-- Stripped `iwrc` codes distinguished by `_jbr_on_query`'s finish block. -/
inductive Rc where
  | queryParse
  | noCollection
  | sendResponse
  | dbError
deriving Repr, DecidableEq

/-- `iwlog_ecode_explained` for the taxonomy above (messages come from
the error registries of iowow/ejdb, outside `src/`; the exact text is
irrelevant to the claims). -/
def rcMsg : Rc → List Char
  | .queryParse => "query parse error".toList
  | .noCollection => "no collection specified".toList
  | .sendResponse => "error sending response".toList
  | .dbError => "internal error".toList

def hexDigitU (n : Nat) : Char :=
  if n < 10 then Char.ofNat ('0'.toNat + n) else Char.ofNat ('A'.toNat + (n - 10))

def hexUpperAux (n : Nat) (acc : List Char) : List Char :=
  if h : n = 0 then acc
  else hexUpperAux (n / 16) (hexDigitU (n % 16) :: acc)
termination_by n
decreasing_by exact Nat.div_lt_self (Nat.pos_of_ne_zero h) (by norm_num)

/-- `snprintf(nbuf, _, "%zX", sz)`: uppercase hexadecimal. -/
def hexUpper (n : Nat) : List Char :=
  if n = 0 then ['0'] else hexUpperAux n []

/-- `printf`-style `%lld` rendering of an id. -/
def intDec (i : Int) : List Char := (toString i).toList

/-- The writes of `_jbr_flush_chunk` after the header phase: nothing if
below the chunk threshold on a non-final call; otherwise the hex size
line, the buffered bytes, a trailing CRLF (then the buffer is cleared),
and on `finish` the terminating `0\r\n\r\n` chunk.  `wok` is the write
oracle, `n` the running write counter; a failed write yields
`JBR_ERROR_SEND_RESPONSE`. -/
def finTerm (wok : Nat → Bool) (c : QCtx) (n : Nat) (finish : Bool) (acc : List Ev) :
    QCtx × List Ev × Nat × Option Rc :=
  if finish then
    if wok n then (c, acc ++ [Ev.fioWrite zeroChunk], n + 1, none)
    else (c, acc, n + 1, some Rc.sendResponse)
  else (c, acc, n, none)

def flushBody (wok : Nat → Bool) (c : QCtx) (n : Nat) (finish : Bool) (wbuf : List Char)
    (acc : List Ev) : QCtx × List Ev × Nat × Option Rc :=
  if ¬finish ∧ wbuf.length < JBR_HTTP_CHUNK_SIZE then (c, acc, n, none)
  else if wbuf.length > 0 then
    if wok n then
      let acc1 := acc ++ [Ev.fioWrite (hexUpper wbuf.length ++ crlf)]
      if wok (n + 1) then
        let acc2 := acc1 ++ [Ev.fioWrite wbuf]
        if wok (n + 2) then
          finTerm wok { c with wbuf := some [] } (n + 3) finish (acc2 ++ [Ev.fioWrite crlf])
        else (c, acc2, n + 3, some Rc.sendResponse)
      else (c, acc1, n + 2, some Rc.sendResponse)
    else (c, acc, n + 1, some Rc.sendResponse)
  else finTerm wok c n finish acc

/-- `_jbr_flush_chunk`: on the first call per request write the chunked
header block (status 200, `application/json`, chunked) and set
`data_sent`; then emit buffered data as above.  The `c.wbuf = none`
branch is unreachable (the C asserts `wbuf != NULL`). -/
def flushChunk (wok : Nat → Bool) (c : QCtx) (n : Nat) (finish : Bool) :
    QCtx × List Ev × Nat × Option Rc :=
  match c.wbuf with
  | none => (c, [], n, none)
  | some wbuf =>
    if c.dataSent then flushBody wok c n finish wbuf []
    else if wok n then
      flushBody wok { c with dataSent := true } (n + 1) finish wbuf [Ev.writeHeaders]
    else (c, [], n + 1, some Rc.sendResponse)

/-- A result document delivered to the visitor (`EJDB_DOC`): its id and
its JSON rendering (`jbl_node_as_json`/`jbl_as_json` append the same
serialized text). -/
structure Doc where
  id : Int
  json : List Char
deriving Repr, DecidableEq

/-- The per-document frame appended by `_jbr_query_visitor`:
`\r\n<decimal id>\t<document JSON>`. -/
def frame (d : Doc) : List Char := crlf ++ intDec d.id ++ '\t' :: d.json

/-- `_jbr_query_visitor`: create the assembly buffer on first use, flush
a pending explain buffer followed by the separator line, append the
document frame, then try a non-final chunk flush.  Allocation is
modelled as always succeeding. -/
def queryVisitor (wok : Nat → Bool) (c : QCtx) (n : Nat) (d : Doc) :
    QCtx × List Ev × Nat × Option Rc :=
  let c1 := match c.wbuf with
    | none => { c with wbuf := some [] }
    | some _ => c
  let c2 := match c1.explain with
    | some e => { c1 with wbuf := some (c1.wbuf.getD [] ++ e ++ sepLine), explain := none }
    | none => c1
  let c3 := { c2 with wbuf := some (c2.wbuf.getD [] ++ frame d) }
  flushChunk wok c3 n false

/-- The visitor loop driven by `ejdb_exec`: documents are delivered one
at a time; a non-zero visitor return code aborts the execution. -/
def runVisits (wok : Nat → Bool) : QCtx → Nat → List Doc → QCtx × List Ev × Nat × Option Rc
  | c, n, [] => (c, [], n, none)
  | c, n, d :: ds =>
    match queryVisitor wok c n d with
    | (c1, evs1, n1, some r) => (c1, evs1, n1, some r)
    | (c1, evs1, n1, none) =>
      match runVisits wok c1 n1 ds with
      | (c2, evs2, n2, r2) => (c2, evs1 ++ evs2, n2, r2)

/-- `jql_create` outcome: a parse failure with the parser's diagnostic
(`jql_error`), or a compiled query with its `jql_has_apply` flag. -/
inductive JqlResult where
  | parseErr (msg : List Char)
  | ok (hasApply : Bool)
deriving Repr, DecidableEq

/-- The `X-Hints` header as seen by `_jbr_on_query`: absent, present but
not a single string (occurred more than once), or a single string. -/
inductive HintsHdr where
  | missing
  | notString
  | str (v : List Char)
deriving Repr, DecidableEq

def isPrefixOfB : List Char → List Char → Bool
  | [], _ => true
  | _ :: _, [] => false
  | a :: as, b :: bs => a = b ∧ isPrefixOfB as bs

/-- C `strstr(hay, pat) != NULL` (contiguous substring search). -/
def isSubstr (pat : List Char) : List Char → Bool
  | [] => isPrefixOfB pat []
  | c :: tl => isPrefixOfB pat (c :: tl) ∨ isSubstr pat tl

/-- Modelled from the spec: the behaviour of `ejdb_exec` (ejdb2.c is not
under `src/`).  It delivers `docs` to the visitor in result order and
then reports `err`; query-parse failures are reported by query
compilation (`jql_create`) before execution ever starts, and a missing
collection is detected before any document is visited, so those two
codes cannot arrive after a document has been delivered. -/
structure ExecSpec where
  docs : List Doc
  err : Option Rc
  sound : err ≠ some Rc.queryParse ∧ (err = some Rc.noCollection → docs = [])

/-- The environment of one `_jbr_on_query` run: the request body, the
outcomes of the database facade calls, the `X-Hints` header, the text
the engine writes into an attached explain log, and the socket write
oracle. -/
structure QueryEnv where
  body : List Char
  jql : JqlResult
  hints : HintsHdr
  explainText : List Char
  exec : ExecSpec
  wok : Nat → Bool

/-- The `finish:` block of `_jbr_on_query` (with `iwrc_strip_code`
applied): query-parse and no-collection errors are answered with 400;
any other error is logged and either the stream is completed (data
already sent) or a 500 is sent; success completes the stream or sends
an empty plain 200.  Afterwards the explain and assembly buffers are
destroyed. -/
def finishQ (c : QCtx) (evs : List Ev) (rc : Option Rc) (parseMsg : List Char) :
    List Ev × QCtx :=
  let evs2 :=
    match rc with
    | some Rc.queryParse =>
      [Ev.send 400 (some "text/plain") parseMsg parseMsg.length]
    | some Rc.noCollection =>
      [Ev.send 400 (some "text/plain") (rcMsg Rc.noCollection) (rcMsg Rc.noCollection).length]
    | some r =>
      if c.dataSent then [Ev.logError, Ev.complete]
      else [Ev.logError, Ev.send 500 (some "text/plain") (rcMsg r) (rcMsg r).length]
    | none =>
      if c.dataSent then [Ev.complete]
      else [Ev.send 200 none [] 0]
  (evs ++ evs2, { c with explain := none, wbuf := none })

/-- The execution tail of `_jbr_on_query`: run the visitor loop
(`ejdb_exec`), on success with an allocated assembly buffer append a
trailing CRLF and emit the final chunk marked finish, then run the
finish block. -/
def onQueryExec (env : QueryEnv) (c : QCtx) : List Ev × QCtx :=
  match runVisits env.wok c 0 env.exec.docs with
  | (c1, evs1, n1, rv) =>
    let rc := match rv with | some r => some r | none => env.exec.err
    match rc with
    | none =>
      match c1.wbuf with
      | some wb =>
        let c2 := { c1 with wbuf := some (wb ++ crlf) }
        match flushChunk env.wok c2 n1 true with
        | (c3, evs2, _, r2) => finishQ c3 (evs1 ++ evs2) r2 []
      | none => finishQ c1 evs1 none []
    | some r => finishQ c1 evs1 (some r) []

/-- `_jbr_on_query`: reject an empty body with 400; compile the query
(parse failure goes to the finish block); reject an anonymous mutating
query with 403; reject a multi-valued `X-Hints` header with 400; attach
an explain buffer when the `explain` hint is a substring of the header
value; then execute.  Returns the event trace and the final context. -/
def onQuery (ra : Bool) (env : QueryEnv) : List Ev × QCtx :=
  let c0 : QCtx := ⟨ra, false, none, none⟩
  if env.body.length < 1 then ([Ev.send 400 none [] 0], c0)
  else
    match env.jql with
    | .parseErr msg => finishQ c0 [] (some Rc.queryParse) msg
    | .ok hasApply =>
      if ra ∧ hasApply then ([Ev.send 403 none [] 0], c0)
      else
        match env.hints with
        | .notString => ([Ev.send 400 none [] 0], c0)
        | h =>
          let useExplain :=
            match h with
            | .str v => isSubstr explainLit v
            | _ => false
          onQueryExec env
            (if useExplain then { c0 with explain := some env.explainText } else c0)

/-! ## Single-response handlers -/

/-- Stripped error codes distinguished by `_jbr_on_patch`'s switch: the
ten client-error kinds, or anything else. -/
inductive PatchRc where
  | parseJson
  | parseInvalidCodepoint
  | parseInvalidUtf8
  | parseUnquotedString
  | patchTargetInvalid
  | patchNoValue
  | patchInvalidOp
  | patchTestFailed
  | patchInvalidArrayIndex
  | jsonPointer
  | other
deriving Repr, DecidableEq

def PatchRc.isClient400 : PatchRc → Bool
  | .other => false
  | _ => true

/-- `_jbr_on_patch`: anonymous contexts get 403, an empty body 400;
then `ejdb_patch` runs (`rc = none` is success, otherwise the stripped
code with its `iwlog_ecode_explained` message `msg`).  The switch sends
a 400 for the ten client-error kinds and falls through, after which the
`if (rc)` still sees a non-zero `rc` and reports a 500 as well. -/
def onPatch (readAnon : Bool) (body : List Char) (rc : Option PatchRc) (msg : List Char) :
    List Ev :=
  if readAnon then [Ev.send 403 none [] 0]
  else if body.length < 1 then [Ev.send 400 none [] 0]
  else
    match rc with
    | some r =>
      (if r.isClient400 then [Ev.send 400 (some "text/plain") msg msg.length] else [])
        ++ [Ev.logError, Ev.send 500 (some "text/plain") msg msg.length]
    | none => [Ev.send 200 none [] 0]

/-- `_jbr_on_put`: 403 for anonymous, 400 for empty body, 400 with the
parser message for a `jbl_from_json` failure, 500 for an `ejdb_put`
failure, else 200 empty. -/
def onPut (readAnon : Bool) (body : List Char) (parseRc : Option (List Char))
    (putRc : Option (List Char)) : List Ev :=
  if readAnon then [Ev.send 403 none [] 0]
  else if body.length < 1 then [Ev.send 400 none [] 0]
  else
    match parseRc with
    | some m => [Ev.send 400 (some "text/plain") m m.length]
    | none =>
      match putRc with
      | some m => [Ev.logError, Ev.send 500 (some "text/plain") m m.length]
      | none => [Ev.send 200 none [] 0]

/-- `_jbr_on_post`: as `onPut`, but success answers 200 `text/plain`
with the new id rendered in decimal (`iwitoa`). -/
def onPost (readAnon : Bool) (body : List Char) (parseRc : Option (List Char))
    (putRc : Option (List Char)) (newId : Int) : List Ev :=
  if readAnon then [Ev.send 403 none [] 0]
  else if body.length < 1 then [Ev.send 400 none [] 0]
  else
    match parseRc with
    | some m => [Ev.send 400 (some "text/plain") m m.length]
    | none =>
      match putRc with
      | some m => [Ev.logError, Ev.send 500 (some "text/plain") m m.length]
      | none => [Ev.send 200 (some "text/plain") (intDec newId) (intDec newId).length]

/-- `ejdb_remove` outcome. -/
inductive RemoveRes where
  | ok
  | notFound
  | err (msg : List Char)
deriving Repr, DecidableEq

/-- `_jbr_on_delete`: 403 for anonymous, 404 for not-found, 500 for any
other error, 200 empty on success. -/
def onDelete (readAnon : Bool) (res : RemoveRes) : List Ev :=
  if readAnon then [Ev.send 403 none [] 0]
  else
    match res with
    | .notFound => [Ev.send 404 none [] 0]
    | .err m => [Ev.logError, Ev.send 500 (some "text/plain") m m.length]
    | .ok => [Ev.send 200 none [] 0]

/-! ## GET/HEAD handler and the JSON printers -/

/-- Modelled from the spec: the document JSON values serialized by the
jbl streaming printer (jbl.c is not under `src/`). -/
inductive Json where
  | null
  | boolean (b : Bool)
  | num (n : Int)
  | str (s : List Char)
  | arr (xs : List Json)
  | obj (fs : List (List Char × Json))

def indentOf (ind : Nat) : List Char := List.replicate (2 * ind) ' '

mutual

/-- Modelled from the spec: the jbl printer emits the serialized text as
a sequence of pieces handed to a printer callback
(`jbl_xstr_json_printer` appends them to an `IWXSTR`,
`jbl_count_json_printer` only accumulates their sizes); in
`JBL_PRINT_PRETTY` mode members are placed on indented lines. -/
def jsonPieces : Nat → Json → List (List Char)
  | _, .null => ["null".toList]
  | _, .boolean true => ["true".toList]
  | _, .boolean false => ["false".toList]
  | _, .num n => [intDec n]
  | _, .str s => ['"' :: (s ++ ['"'])]
  | _, .arr [] => ["[]".toList]
  | ind, .arr (x :: xs) =>
    ["[".toList] ++ jsonArrPieces (ind + 1) (x :: xs) ++ [['\n'] ++ indentOf ind ++ "]".toList]
  | _, .obj [] => "\x7b\x7d".toList :: []
  | ind, .obj (f :: fs) =>
    ["\x7b".toList] ++ jsonObjPieces (ind + 1) (f :: fs) ++ [['\n'] ++ indentOf ind ++ "\x7d".toList]

def jsonArrPieces : Nat → List Json → List (List Char)
  | _, [] => []
  | ind, x :: xs =>
    [['\n'] ++ indentOf ind] ++ jsonPieces ind x
      ++ (if xs.isEmpty then [] else [[',']]) ++ jsonArrPieces ind xs

def jsonObjPieces : Nat → List (List Char × Json) → List (List Char)
  | _, [] => []
  | ind, (k, v) :: fs =>
    [['\n'] ++ indentOf ind ++ '"' :: (k ++ "\": ".toList)] ++ jsonPieces ind v
      ++ (if fs.isEmpty then [] else [[',']]) ++ jsonObjPieces ind fs

end

/-- `jbl_as_json(jbl, jbl_xstr_json_printer, xstr, JBL_PRINT_PRETTY)`:
the pieces concatenated into the assembly buffer. -/
def prettyJson (j : Json) : List Char := (jsonPieces 0 j).flatten

/-- `jbl_as_json(jbl, jbl_count_json_printer, &nbytes, JBL_PRINT_PRETTY)`:
only the piece sizes are accumulated; no serialized text is built. -/
def countJson (j : Json) : Nat := ((jsonPieces 0 j).map List.length).sum

/-- Modelled from the facil.io fiobj representation (facil.io is an
external dependency, not under `src/`): `http_s.method` holds a dynamic
string object, whose `FIOBJ` handle is a tagged pointer to an 8-byte
aligned heap allocation. -/
structure FiobjStr where
  s : String
  raw : Nat
  aligned : raw % 8 = 0
  nonnull : raw ≠ 0

/-- `ejdb_get` outcome. -/
inductive GetRes where
  | notFound
  | dbErr
  | doc (j : Json)

/-- `_jbr_on_get`: 404 for not-found, 500 for other errors; on success
the branch condition is the C expression `req->method == JBR_HEAD`,
which compares the raw `FIOBJ` handle of the request's method string
with the enum constant `JBR_HEAD = 6`; the then-branch uses the
counting printer and sends an empty body with the counted length, the
else-branch materializes the pretty JSON and sends it. -/
def onGet (reqMethod : FiobjStr) (res : GetRes) (errMsg : List Char) : List Ev :=
  match res with
  | .notFound => [Ev.send 404 none [] 0]
  | .dbErr => [Ev.logError, Ev.send 500 (some "text/plain") errMsg errMsg.length]
  | .doc j =>
    if reqMethod.raw = 6 then
      [Ev.send 200 (some "application/json") [] (countJson j)]
    else
      [Ev.send 200 (some "application/json") (prettyJson j) (prettyJson j).length]

/-! ## WebSocket upgrade -/

inductive UpgradeResult where
  | httpError (status : Nat)
  | upgraded (readAnon : Bool)
deriving Repr, DecidableEq

/-- `_jbr_on_http_upgrade`: 400 unless the path is `/` and the requested
protocol is 9 bytes with second byte `'e'`; then the token block.  When
the header is missing and `read_anon` is set, the C sets
`wctx->read_anon = true` and falls through to the
`!fiobj_type_is(h, FIOBJ_T_STRING)` test, which an absent header also
fails; the single-string case is compared against the token as in the
HTTP gate.  `upgradeOk` models the `http_upgrade2ws` return. -/
def onHttpUpgrade (cfg : HttpCfg) (path proto : List Char) (hdr : HeaderVal)
    (upgradeOk : Bool) : UpgradeResult :=
  if path ≠ ['/'] ∨ proto.length ≠ 9 ∨ proto.get? 1 ≠ some 'e' then .httpError 400
  else
    match cfg.accessToken with
    | none => if upgradeOk then .upgraded false else .httpError 500
    | some tok =>
      let after : Bool → UpgradeResult := fun ra =>
        match hdr with
        | .single v =>
          if v.length ≠ tok.length ∨ v.take tok.length ≠ tok.take tok.length then
            .httpError 403
          else if upgradeOk then .upgraded ra else .httpError 500
        | _ => .httpError 400
      match hdr with
      | .missing => if cfg.readAnon then after true else .httpError 401
      | _ => after false

/-- Invariant tying the bytes already on the socket (`sb`) to the
assembly buffer: either nothing has been emitted yet and the buffer
carries the pending prefix `P`, or the first emitted chunk already
started with `P` right after its hex size line. -/
def StreamPre (P sb : List Char) (w : Option (List Char)) : Prop :=
  (sb = [] ∧ ∃ s, w = some (P ++ s)) ∨
  (∃ L t, sb = hexUpper L ++ crlf ++ P ++ t)

/-! ## Theorems -/

/-- The two-step comparison of the C token check (length equality plus
`memcmp` over the token length) is plain list equality. -/
theorem take_len_eq_iff (v tok : List Char) :
    (v.length = tok.length ∧ v.take tok.length = tok.take tok.length) ↔ v = tok := by
  constructor
  · rintro ⟨h1, h2⟩
    rwa [List.take_length, ← h1, List.take_length] at h2
  · rintro rfl
    exact ⟨rfl, rfl⟩

/-- C1: with an access token configured, the token gate admits a
header-less request as anonymous exactly when anonymous-read is enabled
and the parsed method is GET, HEAD, or POST without a collection
(otherwise 401); a multi-valued header gets 400; a single header value
is admitted with `read_anon = false` exactly when it equals the token
byte-for-byte (length and bytes), and any other value gets 403.  The
right-hand side enumerates every way a request can proceed, so an
admitted request either presented the exact token (`proceed false`) or
was anonymous-eligible with no header (`proceed true`). -/
theorem tokenGate_spec (tok : List Char) (ra : Bool) (ctx : ReqCtx) (hdr : HeaderVal) :
    tokenGate ⟨some tok, ra⟩ ctx hdr =
      match hdr with
      | .missing =>
        if ra = true ∧ anonEligible ctx = true then GateResult.proceed true
        else GateResult.reject 401
      | .multi => GateResult.reject 400
      | .single v =>
        if v = tok then GateResult.proceed false else GateResult.reject 403 := by
  cases hdr with
  | missing => rfl
  | multi => rfl
  | single v =>
    simp only [tokenGate]
    by_cases h : v = tok
    · subst h
      simp
    · have hne : v.length ≠ tok.length ∨ v.take tok.length ≠ tok.take tok.length := by
        by_contra hc
        push_neg at hc
        exact h ((take_len_eq_iff v tok).mp hc)
      rw [if_pos hne, if_neg h]

/-- C3 (code bug): for a PATCH whose database error is one of the ten
client-error kinds, `_jbr_on_patch` sends the 400 diagnostic and then,
because the switch only breaks, falls into `if (rc)` and issues a second
response with status 500: two Response Writer calls for one request. -/
theorem onPatch_double_response :
    onPatch false ['x'] (some PatchRc.parseJson) ['m'] =
      [Ev.send 400 (some "text/plain") ['m'] 1, Ev.logError,
       Ev.send 500 (some "text/plain") ['m'] 1] ∧
    (sentStatuses (onPatch false ['x'] (some PatchRc.parseJson) ['m'])).length = 2 := by
  constructor
  · rfl
  · rfl

/-- The counted serialized size equals the length of the materialized
serialization: what `Content-Length` would be had the HEAD branch been
reachable. -/
theorem countJson_eq_length (j : Json) : countJson j = (prettyJson j).length := by
  simp [countJson, prettyJson]

/-- No 8-byte-aligned fiobj handle equals the enum constant `JBR_HEAD = 6`. -/
theorem fiobjStr_raw_ne_six (h : FiobjStr) : h.raw ≠ 6 := by
  intro hc
  have := h.aligned
  rw [hc] at this
  simp at this

/-- C8 (code bug): `_jbr_on_get` branches on `req->method == JBR_HEAD`,
comparing the fiobj handle of the method string against the enum value
6; the handle of a HEAD request's method string never equals 6, so a
HEAD request takes the GET branch: the document is materialized as
pretty JSON and passed as the response body, instead of counting the
size and sending an empty body. -/
theorem onGet_head_branch_dead :
    onGet ⟨"HEAD", 1024, by norm_num, by norm_num⟩
        (GetRes.doc (Json.obj [(['a'], Json.num 1)])) [] =
      [Ev.send 200 (some "application/json")
        (prettyJson (Json.obj [(['a'], Json.num 1)]))
        (prettyJson (Json.obj [(['a'], Json.num 1)])).length] ∧
    prettyJson (Json.obj [(['a'], Json.num 1)]) ≠ [] := by
  constructor
  · rfl
  · decide

/-- C9 (code bug): on a WebSocket upgrade with a token configured,
anonymous-read enabled and no `X-Access-Token` header,
`_jbr_on_http_upgrade` sets `wctx->read_anon = true` but then falls
through to the `!fiobj_type_is(h, FIOBJ_T_STRING)` test, which the
absent header fails, so the upgrade is answered with 400 instead of
proceeding. -/
theorem onHttpUpgrade_anon_rejected :
    onHttpUpgrade ⟨some "tok".toList, true⟩ "/".toList "websocket".toList
        HeaderVal.missing true = UpgradeResult.httpError 400 := by
  decide

/-- C10: with no access token configured the gate admits every parsed
request with `read_anon = false`, whatever the anonymous-read flag says,
and with `read_anon = false` none of the four mutation handlers can ever
send the 403 anonymous-mutation rejection. -/
theorem noToken_gate_bypassed (ra : Bool) (ctx : ReqCtx) (hdr : HeaderVal)
    (b m : List Char) (parseRc putRc : Option (List Char)) (nid : Int)
    (prc : Option PatchRc) (res : RemoveRes) :
    tokenGate ⟨none, ra⟩ ctx hdr = GateResult.proceed false ∧
    (sentStatuses (onPut false b parseRc putRc)).count 403 = 0 ∧
    (sentStatuses (onPost false b parseRc putRc nid)).count 403 = 0 ∧
    (sentStatuses (onPatch false b prc m)).count 403 = 0 ∧
    (sentStatuses (onDelete false res)).count 403 = 0 := by
  refine ⟨rfl, ?_, ?_, ?_, ?_⟩
  · unfold onPut
    split
    · simp at *
    · split
      · simp [sentStatuses]
      · rcases parseRc with _ | mm
        · rcases putRc with _ | mm2 <;> simp [sentStatuses]
        · simp [sentStatuses]
  · unfold onPost
    split
    · simp at *
    · split
      · simp [sentStatuses]
      · rcases parseRc with _ | mm
        · rcases putRc with _ | mm2 <;> simp [sentStatuses]
        · simp [sentStatuses]
  · unfold onPatch
    split
    · simp at *
    · split
      · simp [sentStatuses]
      · rcases prc with _ | r
        · simp [sentStatuses]
        · rcases hr : r.isClient400 <;> simp [sentStatuses, hr]
  · unfold onDelete
    split
    · simp at *
    · rcases res with _ | _ | mm <;> simp [sentStatuses]

/-! ### Request-parser lemmas (C4) -/

theorem strchrIdx_not_mem (l : List Char) (t : Char) (h : t ∉ l) :
    strchrIdx l t = none := by
  induction l with
  | nil => rfl
  | cons c cs ih =>
    have hc : ¬(c = t) := by rintro rfl; exact h (by simp)
    simp only [strchrIdx, if_neg hc, ih (fun hm => h (List.mem_cons_of_mem _ hm))]
    rfl

theorem strchrIdx_append_slash (coll rest : List Char) (hcs : '/' ∉ coll) :
    strchrIdx (coll ++ '/' :: rest) '/' = some coll.length := by
  induction coll with
  | nil => simp [strchrIdx]
  | cons c cs ih =>
    have hc : ¬(c = '/') := by rintro rfl; exact hcs (by simp)
    have hr := ih (fun hm => hcs (List.mem_cons_of_mem _ hm))
    simp [strchrIdx, hc, hr]

/-- Path decomposition for `"/" collection "/" idcomponent`: what
`_jbr_fill_ctx` computes once the two components are identified. -/
theorem fillCtxPath_two_components (m : JbrMethod) (coll idc : List Char)
    (hc : coll ≠ []) (hcs : '/' ∉ coll) :
    fillCtxPath m ('/' :: coll ++ '/' :: idc) =
      (if idc = [] then
        (if coll.length ≤ EJDB_COLLECTION_NAME_MAX_LEN then some ⟨m, some coll, 0⟩
         else none)
       else if JBNUMBUF_SIZE - 1 < idc.length then none
       else if (strtoll idc).2 ≠ [] ∨ (strtoll idc).1 < 1 ∨ m = JbrMethod.post then none
       else if coll.length ≤ EJDB_COLLECTION_NAME_MAX_LEN then
         some ⟨m, some coll, (strtoll idc).1⟩
       else none) := by
  have hne1 : ('/' :: coll ++ '/' :: idc) ≠ ['/'] := by
    intro h
    have := congrArg List.length h
    simp at this
  have hlen2 : ¬(('/' :: coll ++ '/' :: idc).length < 2) := by
    simp only [List.length_cons, List.length_append]
    omega
  have hdrop : ('/' :: coll ++ '/' :: idc).drop 1 = coll ++ '/' :: idc := by
    simp
  have hfind : findSlashFrom1 ('/' :: coll ++ '/' :: idc) = some (coll.length + 1) := by
    simp [findSlashFrom1, hdrop, strchrIdx_append_slash coll idc hcs]
  have htake : (coll ++ '/' :: idc).take (coll.length + 1 - 1) = coll := by
    simp
  have hdrop2 : ('/' :: coll ++ '/' :: idc).drop (coll.length + 1 + 1) = idc := by
    have : ('/' :: coll ++ '/' :: idc) = (('/' :: coll) ++ ['/']) ++ idc := by simp
    rw [this]
    have hl : (('/' :: coll) ++ ['/']).length = coll.length + 1 + 1 := by simp
    rw [← hl, List.drop_left]
  have hlen3 : ('/' :: coll ++ '/' :: idc).length = coll.length + idc.length + 2 := by
    simp
    omega
  unfold fillCtxPath
  rw [if_neg hne1, if_neg hlen2, hfind]
  simp only [hdrop, htake, hdrop2, hlen3]
  have harith : coll.length + idc.length + 2 - (coll.length + 1) - 1 = idc.length := by
    omega
  rw [harith]
  by_cases hidc : idc = []
  · subst hidc
    simp
  · have hlt : ¬(idc.length < 1) := by
      have : idc.length ≠ 0 := fun h => hidc (List.length_eq_zero.mp h)
      omega
    rw [if_neg hlt, if_neg hidc]

/-- Bare `"/" collection` paths: `_jbr_fill_ctx` rejects every method
except POST. -/
theorem fillCtxPath_bare_collection (m : JbrMethod) (coll : List Char)
    (hc : coll ≠ []) (hcs : '/' ∉ coll) (hm : m ≠ JbrMethod.post) :
    fillCtxPath m ('/' :: coll) = none := by
  have hne1 : ('/' :: coll) ≠ ['/'] := by
    intro h
    have := congrArg List.length h
    simp at this
    exact hc this
  have hlen2 : ¬(('/' :: coll).length < 2) := by
    have : coll.length ≠ 0 := fun h => hc (List.length_eq_zero.mp h)
    simp
    omega
  have hfind : findSlashFrom1 ('/' :: coll) = none := by
    simp [findSlashFrom1, strchrIdx_not_mem coll '/' hcs]
  unfold fillCtxPath
  rw [if_neg hne1, if_neg hlen2, hfind]
  cases m <;> simp_all

/-- C4 (amended): for a path `"/" collection "/" id` with a non-empty id
component (short enough for the numeric buffer), the parser accepts
exactly when `strtoll` consumes the whole component with value ≥ 1 and
the method is not POST — so `"0"`, `"-1"` and `"1a"` are all rejected
with 400.  An EMPTY id component, however, is not rejected: the request
is accepted with `id = 0` (id unspecified).  A bare `"/" collection`
path is rejected with 400 for every method except POST. -/
theorem requestParser_id_rules (m : JbrMethod) (mstr : String) (coll idc : List Char)
    (hm : parseMethod mstr = some m) (hc : coll ≠ []) (hcs : '/' ∉ coll)
    (hcl : coll.length ≤ EJDB_COLLECTION_NAME_MAX_LEN)
    (hil : idc.length ≤ JBNUMBUF_SIZE - 1) (hne : idc ≠ []) :
    (fillCtx mstr (String.mk ('/' :: coll ++ '/' :: idc)) ≠ none ↔
      ((strtoll idc).2 = [] ∧ 1 ≤ (strtoll idc).1 ∧ m ≠ JbrMethod.post)) ∧
    fillCtx mstr (String.mk ('/' :: coll ++ ['/'])) = some ⟨m, some coll, 0⟩ ∧
    (m ≠ JbrMethod.post →
      routeRequest ⟨none, false⟩ mstr (String.mk ('/' :: coll)) HeaderVal.missing =
        Routed.err 400) ∧
    routeRequest ⟨none, false⟩ "GET" "/c/0" HeaderVal.missing = Routed.err 400 ∧
    routeRequest ⟨none, false⟩ "GET" "/c/-1" HeaderVal.missing = Routed.err 400 ∧
    routeRequest ⟨none, false⟩ "GET" "/c/1a" HeaderVal.missing = Routed.err 400 := by
  have hfill : ∀ q : List Char, fillCtx mstr (String.mk q) = fillCtxPath m q := by
    intro q
    unfold fillCtx
    rw [hm]
    rfl
  refine ⟨?_, ?_, ?_, by decide, by decide, by decide⟩
  · rw [hfill, fillCtxPath_two_components m coll idc hc hcs]
    rw [if_neg hne]
    have hbig : ¬(JBNUMBUF_SIZE - 1 < idc.length) := by omega
    rw [if_neg hbig]
    constructor
    · intro h
      by_cases hcond : (strtoll idc).2 ≠ [] ∨ (strtoll idc).1 < 1 ∨ m = JbrMethod.post
      · rw [if_pos hcond] at h
        exact absurd rfl h
      · push_neg at hcond
        exact ⟨hcond.1, hcond.2.1, hcond.2.2⟩
    · rintro ⟨h1, h2, h3⟩
      have hcond : ¬((strtoll idc).2 ≠ [] ∨ (strtoll idc).1 < 1 ∨ m = JbrMethod.post) := by
        push_neg
        exact ⟨h1, h2, h3⟩
      rw [if_neg hcond, if_pos hcl]
      simp
  · have : ('/' :: coll ++ ['/'] : List Char) = '/' :: coll ++ '/' :: [] := by simp
    rw [hfill, this, fillCtxPath_two_components m coll [] hc hcs]
    simp [hcl]
  · intro hmp
    unfold routeRequest
    rw [hfill, fillCtxPath_bare_collection m coll hc hcs hmp]

/-- Closed instantiation of `requestParser_id_rules` at
collection `"c"`, id component `"1"`, method GET. -/
theorem requestParser_id_rules_witness :
    (fillCtx "GET" (String.mk ('/' :: ['c'] ++ '/' :: ['1'])) ≠ none ↔
      ((strtoll ['1']).2 = [] ∧ 1 ≤ (strtoll ['1']).1 ∧ JbrMethod.get ≠ JbrMethod.post)) ∧
    fillCtx "GET" (String.mk ('/' :: ['c'] ++ ['/'])) = some ⟨JbrMethod.get, some ['c'], 0⟩ ∧
    (JbrMethod.get ≠ JbrMethod.post →
      routeRequest ⟨none, false⟩ "GET" (String.mk ('/' :: ['c'])) HeaderVal.missing =
        Routed.err 400) ∧
    routeRequest ⟨none, false⟩ "GET" "/c/0" HeaderVal.missing = Routed.err 400 ∧
    routeRequest ⟨none, false⟩ "GET" "/c/-1" HeaderVal.missing = Routed.err 400 ∧
    routeRequest ⟨none, false⟩ "GET" "/c/1a" HeaderVal.missing = Routed.err 400 :=
  requestParser_id_rules JbrMethod.get "GET" ['c'] ['1'] (by decide) (by decide)
    (by decide) (by decide) (by decide) (by decide)

/-- C4 (counterexample): the path `"/c/"` — an empty id component — is
NOT rejected by the parser: `_jbr_fill_ctx` returns success with
`id = 0` and the request is dispatched, so no 400 is sent for it. -/
theorem fillCtx_empty_id_accepted :
    fillCtx "GET" "/c/" = some ⟨JbrMethod.get, some ['c'], 0⟩ ∧
    routeRequest ⟨none, false⟩ "GET" "/c/" HeaderVal.missing =
      Routed.handled ⟨JbrMethod.get, some ['c'], 0⟩ false := by
  constructor
  · rfl
  · rfl

/-! ### Query handler: empty result set (C5) -/

/-- C5 (counterexample): a query with a non-empty body that parses and
executes successfully but visits zero documents is answered by
`_jbr_http_send(req, 200, 0, 0, 0)` — a plain empty 200.  The assembly
buffer was never allocated (it is created inside the visitor), so the
`!rc && rctx->wbuf` final-flush branch is skipped: no chunked header
block is written and no `0\r\n\r\n` terminating chunk is emitted. -/
theorem onQuery_zero_docs_plain_200 :
    (onQuery false ⟨['q'], JqlResult.ok false, HintsHdr.missing, [],
        ⟨[], none, by simp⟩, allOk⟩).1 = [Ev.send 200 none [] 0] ∧
    Ev.writeHeaders ∉ (onQuery false ⟨['q'], JqlResult.ok false, HintsHdr.missing, [],
        ⟨[], none, by simp⟩, allOk⟩).1 ∧
    socketBytes (onQuery false ⟨['q'], JqlResult.ok false, HintsHdr.missing, [],
        ⟨[], none, by simp⟩, allOk⟩).1 = [] := by
  refine ⟨rfl, by decide, rfl⟩

/-- C5 (amended): for every query request with a non-empty body that
compiles, passes the anonymous-mutation check and the hints check, and
whose execution succeeds visiting zero documents, the handler sends a
single plain 200 response with an empty body and writes nothing to the
socket (no chunked framing). -/
theorem onQuery_zero_docs_spec (ra ha : Bool) (bodyc e : List Char) (hints : HintsHdr)
    (wok : Nat → Bool) (hb : bodyc ≠ []) (hra : ¬(ra = true ∧ ha = true))
    (hh : hints ≠ HintsHdr.notString) :
    onQuery ra ⟨bodyc, JqlResult.ok ha, hints, e, ⟨[], none, by simp⟩, wok⟩ =
      ([Ev.send 200 none [] 0], ⟨ra, false, none, none⟩) := by
  have hlen : ¬(bodyc.length < 1) := by
    have : bodyc.length ≠ 0 := fun h => hb (List.length_eq_zero.mp h)
    omega
  cases hints with
  | notString => exact absurd rfl hh
  | missing => simp [onQuery, onQueryExec, hlen, hra, runVisits, finishQ]
  | str v =>
    rcases hv : isSubstr explainLit v with _ | _ <;>
      simp [onQuery, onQueryExec, hlen, hra, hv, runVisits, finishQ]

/-- C6: each visited document is appended to the assembly buffer as the
frame `\r\n<decimal id>\t<document JSON>`; with the header block already
written, a non-final chunk is emitted exactly when the buffer has
reached 4096 bytes (below the threshold the visitor only appends); an
emitted chunk is written as `<uppercase hex size>\r\n<buffered
bytes>\r\n` and the buffer is cleared; a finish flush emits the pending
buffer unconditionally and terminates the stream with `0\r\n\r\n`. -/
theorem chunk_framing_spec (ra : Bool) (b : List Char) (d : Doc) (n : Nat) :
    (((b ++ frame d).length < JBR_HTTP_CHUNK_SIZE) →
      queryVisitor allOk ⟨ra, true, some b, none⟩ n d =
        (⟨ra, true, some (b ++ frame d), none⟩, [], n, none)) ∧
    ((JBR_HTTP_CHUNK_SIZE ≤ (b ++ frame d).length) →
      queryVisitor allOk ⟨ra, true, some b, none⟩ n d =
        (⟨ra, true, some [], none⟩,
         [Ev.fioWrite (hexUpper (b ++ frame d).length ++ crlf),
          Ev.fioWrite (b ++ frame d), Ev.fioWrite crlf], n + 3, none)) ∧
    (b ≠ [] →
      flushChunk allOk ⟨ra, true, some b, none⟩ n true =
        (⟨ra, true, some [], none⟩,
         [Ev.fioWrite (hexUpper b.length ++ crlf), Ev.fioWrite b, Ev.fioWrite crlf,
          Ev.fioWrite zeroChunk], n + 4, none)) ∧
    flushChunk allOk ⟨ra, true, some [], none⟩ n true =
      (⟨ra, true, some [], none⟩, [Ev.fioWrite zeroChunk], n + 1, none) := by
  refine ⟨?_, ?_, ?_, ?_⟩
  · intro h
    have h' : b.length + (frame d).length < JBR_HTTP_CHUNK_SIZE := by
      simpa [List.length_append] using h
    simp only [queryVisitor, flushChunk, flushBody, allOk]
    simp
    intro hcon
    exact absurd hcon (by omega)
  · intro h
    have hnl' : ¬(b.length + (frame d).length < JBR_HTTP_CHUNK_SIZE) := by
      simpa [List.length_append] using not_lt.mpr h
    have hf : 0 < (frame d).length := by simp [frame, crlf]
    simp [queryVisitor, flushChunk, flushBody, finTerm, allOk, hnl', hf]
  · intro h
    have h0 : 0 < b.length := List.length_pos.mpr h
    simp [flushChunk, flushBody, finTerm, allOk, h0]
  · simp [flushChunk, flushBody, finTerm, allOk]

/-- Closed instantiation of `chunk_framing_spec`: a small frame is only
buffered; a 4096-byte buffer plus a frame is emitted as one wire chunk;
finish flushes a pending byte and terminates; an empty buffer yields
only the terminator. -/
theorem chunk_framing_spec_witness :
    queryVisitor allOk ⟨false, true, some [], none⟩ 0 ⟨1, ['x']⟩ =
      (⟨false, true, some ([] ++ frame ⟨1, ['x']⟩), none⟩, [], 0, none) ∧
    queryVisitor allOk ⟨false, true, some (List.replicate 4096 'a'), none⟩ 0 ⟨1, ['x']⟩ =
      (⟨false, true, some [], none⟩,
       [Ev.fioWrite (hexUpper (List.replicate 4096 'a' ++ frame ⟨1, ['x']⟩).length ++ crlf),
        Ev.fioWrite (List.replicate 4096 'a' ++ frame ⟨1, ['x']⟩), Ev.fioWrite crlf],
       3, none) ∧
    flushChunk allOk ⟨false, true, some ['x'], none⟩ 0 true =
      (⟨false, true, some [], none⟩,
       [Ev.fioWrite (hexUpper ['x'].length ++ crlf), Ev.fioWrite ['x'], Ev.fioWrite crlf,
        Ev.fioWrite zeroChunk], 4, none) ∧
    flushChunk allOk ⟨false, true, some [], none⟩ 0 true =
      (⟨false, true, some [], none⟩, [Ev.fioWrite zeroChunk], 1, none) :=
  ⟨(chunk_framing_spec false [] ⟨1, ['x']⟩ 0).1 (by decide),
   (chunk_framing_spec false (List.replicate 4096 'a') ⟨1, ['x']⟩ 0).2.1
     (by simp only [List.length_append, List.length_replicate, JBR_HTTP_CHUNK_SIZE]; omega),
   (chunk_framing_spec false ['x'] ⟨1, ['x']⟩ 0).2.2.1 (by decide),
   (chunk_framing_spec false [] ⟨1, ['x']⟩ 0).2.2.2⟩

/-- Closed instantiation of `onQuery_zero_docs_spec`. -/
theorem onQuery_zero_docs_spec_witness :
    onQuery true ⟨['a'], JqlResult.ok false, HintsHdr.missing, [],
        ⟨[], none, by simp⟩, allOk⟩ =
      ([Ev.send 200 none [] 0], ⟨true, false, none, none⟩) :=
  onQuery_zero_docs_spec true false ['a'] [] HintsHdr.missing allOk
    (by decide) (by decide) (by decide)

/-! ### Chunk-flushing invariants (C2) -/

theorem socketBytes_append (l1 l2 : List Ev) :
    socketBytes (l1 ++ l2) = socketBytes l1 ++ socketBytes l2 := by
  induction l1 with
  | nil => rfl
  | cons e tl ih => cases e <;> simp [socketBytes, ih]

theorem finTerm_ctx (wok : Nat → Bool) (c : QCtx) (n : Nat) (f : Bool) (acc : List Ev) :
    (finTerm wok c n f acc).1 = c := by
  unfold finTerm
  repeat' split
  all_goals rfl

theorem finTerm_err (wok : Nat → Bool) (c : QCtx) (n : Nat) (f : Bool) (acc : List Ev) :
    (finTerm wok c n f acc).2.2.2 = none ∨
    (finTerm wok c n f acc).2.2.2 = some Rc.sendResponse := by
  unfold finTerm
  repeat' split
  all_goals first | exact Or.inl rfl | exact Or.inr rfl

theorem finTerm_counts (wok : Nat → Bool) (c : QCtx) (n : Nat) (f : Bool) (acc : List Ev)
    (p : Ev → Bool) (hp : ∀ bts, p (Ev.fioWrite bts) = false) :
    ((finTerm wok c n f acc).2.1).countP p = acc.countP p := by
  unfold finTerm
  repeat' split
  all_goals simp [List.countP_append, hp]

theorem flushBody_ctx (wok : Nat → Bool) (c : QCtx) (n : Nat) (f : Bool) (w : List Char)
    (acc : List Ev) :
    (flushBody wok c n f w acc).1.dataSent = c.dataSent ∧
    (flushBody wok c n f w acc).1.explain = c.explain := by
  unfold flushBody
  repeat' split
  all_goals simp [finTerm_ctx]

theorem flushBody_err (wok : Nat → Bool) (c : QCtx) (n : Nat) (f : Bool) (w : List Char)
    (acc : List Ev) :
    (flushBody wok c n f w acc).2.2.2 = none ∨
    (flushBody wok c n f w acc).2.2.2 = some Rc.sendResponse := by
  unfold flushBody
  repeat' split
  all_goals first
    | exact Or.inl rfl
    | exact Or.inr rfl
    | apply finTerm_err

theorem flushBody_counts (wok : Nat → Bool) (c : QCtx) (n : Nat) (f : Bool) (w : List Char)
    (acc : List Ev) (p : Ev → Bool) (hp : ∀ bts, p (Ev.fioWrite bts) = false) :
    ((flushBody wok c n f w acc).2.1).countP p = acc.countP p := by
  unfold flushBody
  repeat' split
  all_goals simp [finTerm_counts, List.countP_append, hp]

/-- Core invariant of `_jbr_flush_chunk`: a `writeHeaders` event appears
in its output exactly when `data_sent` transitions from false to true
(so at most once), `data_sent` never goes back to false, the only
possible error is `JBR_ERROR_SEND_RESPONSE`, the explain buffer is
untouched, and no full response is ever sent from here. -/
theorem flushChunk_inv (wok : Nat → Bool) (c : QCtx) (n : Nat) (f : Bool) :
    ((flushChunk wok c n f).2.1).countP isHdrEv =
      (if c.dataSent then 0 else if (flushChunk wok c n f).1.dataSent then 1 else 0) ∧
    (c.dataSent = true → (flushChunk wok c n f).1.dataSent = true) ∧
    ((flushChunk wok c n f).2.2.2 = none ∨
      (flushChunk wok c n f).2.2.2 = some Rc.sendResponse) ∧
    (flushChunk wok c n f).1.explain = c.explain ∧
    ((flushChunk wok c n f).2.1).countP isSendEv = 0 := by
  rcases hw : c.wbuf with _ | w
  · rcases hd : c.dataSent <;> simp [flushChunk, hw, hd]
  · cases hd : c.dataSent with
    | true =>
      have hctx := flushBody_ctx wok c n f w []
      have herr := flushBody_err wok c n f w []
      have h1 := flushBody_counts wok c n f w [] isHdrEv (by intro bts; rfl)
      have h2 := flushBody_counts wok c n f w [] isSendEv (by intro bts; rfl)
      simp only [flushChunk, hw, hd]
      simp only [if_true]
      refine ⟨by simp [h1, hd], by simp [hctx.1, hd], herr, hctx.2, by simp [h2]⟩
    | false =>
      cases hk : wok n with
      | false =>
        simp [flushChunk, hw, hd, hk]
      | true =>
        have hctx := flushBody_ctx wok ⟨c.readAnon, true, some w, c.explain⟩ (n + 1) f w
          [Ev.writeHeaders]
        have herr := flushBody_err wok ⟨c.readAnon, true, some w, c.explain⟩ (n + 1) f w
          [Ev.writeHeaders]
        have h1 := flushBody_counts wok ⟨c.readAnon, true, some w, c.explain⟩ (n + 1) f w
          [Ev.writeHeaders] isHdrEv (by intro bts; rfl)
        have h2 := flushBody_counts wok ⟨c.readAnon, true, some w, c.explain⟩ (n + 1) f w
          [Ev.writeHeaders] isSendEv (by intro bts; rfl)
        simp only [flushChunk, hw, hd, hk]
        simp only [Bool.false_eq_true, if_false, if_true]
        refine ⟨?_, ?_, herr, ?_, ?_⟩
        · rw [h1]
          have hds : (flushBody wok ⟨c.readAnon, true, some w, c.explain⟩ (n + 1) f w
              [Ev.writeHeaders]).1.dataSent = true := by
            rw [hctx.1]
          simp [hds, isHdrEv]
        · intro hcon
          rw [hctx.1]
        · rw [hctx.2]
        · rw [h2]
          rfl

/-- The visitor inherits the flush-chunk invariant; additionally it
always leaves the explain buffer released and the assembly buffer
allocated. -/
theorem queryVisitor_inv (wok : Nat → Bool) (c : QCtx) (n : Nat) (d : Doc) :
    ((queryVisitor wok c n d).2.1).countP isHdrEv =
      (if c.dataSent then 0 else if (queryVisitor wok c n d).1.dataSent then 1 else 0) ∧
    (c.dataSent = true → (queryVisitor wok c n d).1.dataSent = true) ∧
    ((queryVisitor wok c n d).2.2.2 = none ∨
      (queryVisitor wok c n d).2.2.2 = some Rc.sendResponse) ∧
    (queryVisitor wok c n d).1.explain = none ∧
    ((queryVisitor wok c n d).2.1).countP isSendEv = 0 := by
  rcases hw : c.wbuf with _ | w <;> rcases he : c.explain with _ | e <;>
    · simp only [queryVisitor, hw, he]
      simpa using flushChunk_inv wok _ n false

/-- The visitor-loop lifting of the invariant: over a whole `ejdb_exec`
run, the chunked header block is written at most once (exactly when
`data_sent` ends up true, starting false), no full response is sent,
and the only error a visitor can produce is the write error. -/
theorem runVisits_inv (wok : Nat → Bool) (ds : List Doc) :
    ∀ (c : QCtx) (n : Nat),
    ((runVisits wok c n ds).2.1).countP isHdrEv =
      (if c.dataSent then 0 else if (runVisits wok c n ds).1.dataSent then 1 else 0) ∧
    (c.dataSent = true → (runVisits wok c n ds).1.dataSent = true) ∧
    ((runVisits wok c n ds).2.2.2 = none ∨
      (runVisits wok c n ds).2.2.2 = some Rc.sendResponse) ∧
    ((runVisits wok c n ds).2.1).countP isSendEv = 0 := by
  induction ds with
  | nil =>
    intro c n
    refine ⟨?_, fun h => h, Or.inl rfl, rfl⟩
    rcases hd : c.dataSent <;> simp [runVisits, hd]
  | cons d tl ih =>
    intro c n
    have hv := queryVisitor_inv wok c n d
    rcases hq : queryVisitor wok c n d with ⟨c1, evs1, n1, r⟩
    rw [hq] at hv
    obtain ⟨hv1, hv2, hv3, _, hv5⟩ := hv
    rcases r with _ | r
    · have ihh := ih c1 n1
      rcases hr : runVisits wok c1 n1 tl with ⟨c2, evs2, n2, r2⟩
      rw [hr] at ihh
      obtain ⟨ih1, ih2, ih3, ih4⟩ := ihh
      have hrun : runVisits wok c n (d :: tl) = (c2, evs1 ++ evs2, n2, r2) := by
        simp [runVisits, hq, hr]
      rw [hrun]
      refine ⟨?_, ?_, ih3, ?_⟩
      · rw [List.countP_append, hv1, ih1]
        rcases hc : c.dataSent <;> rcases hc1 : c1.dataSent <;>
          rcases hc2 : c2.dataSent <;> simp_all
      · intro h
        exact ih2 (hv2 h)
      · rw [List.countP_append, hv5, ih4]
    · have hrun : runVisits wok c n (d :: tl) = (c1, evs1, n1, some r) := by
        simp [runVisits, hq]
      rw [hrun]
      exact ⟨hv1, hv2, hv3, hv5⟩

/-- The finish block keeps the C2 guarantees, given that the events so
far sent no full response and wrote the header block exactly when
`data_sent` says so, and that the 400-answered error kinds can only
arrive with `data_sent` still false. -/
theorem finishQ_c2 (c : QCtx) (evs : List Ev) (rc : Option Rc) (pm : List Char)
    (hs : evs.countP isSendEv = 0)
    (hh : evs.countP isHdrEv = if c.dataSent then 1 else 0)
    (hpc : (rc = some Rc.queryParse ∨ rc = some Rc.noCollection) → c.dataSent = false) :
    ((finishQ c evs rc pm).1.countP isHdrEv ≤ 1) ∧
    ((finishQ c evs rc pm).1.countP isSendEv = 0 ∨
      (finishQ c evs rc pm).1.countP isHdrEv = 0) ∧
    ((finishQ c evs rc pm).1.countP isHdrEv = 0 ∨
      (finishQ c evs rc pm).1.getLast? = some Ev.complete) := by
  rcases rc with _ | r
  · rcases hd : c.dataSent
    · refine ⟨?_, Or.inr ?_, Or.inl ?_⟩ <;>
        simp [finishQ, hd, List.countP_append, hh, hs, isHdrEv, isSendEv]
    · refine ⟨?_, Or.inl ?_, Or.inr ?_⟩ <;>
        simp [finishQ, hd, List.countP_append, hh, hs, isHdrEv, isSendEv]
  · rcases r
    case queryParse =>
      have hd := hpc (Or.inl rfl)
      refine ⟨?_, Or.inr ?_, Or.inl ?_⟩ <;>
        simp [finishQ, hd, List.countP_append, hh, hs, isHdrEv, isSendEv]
    case noCollection =>
      have hd := hpc (Or.inr rfl)
      refine ⟨?_, Or.inr ?_, Or.inl ?_⟩ <;>
        simp [finishQ, hd, List.countP_append, hh, hs, isHdrEv, isSendEv]
    case sendResponse =>
      rcases hd : c.dataSent
      · refine ⟨?_, Or.inr ?_, Or.inl ?_⟩ <;>
          simp [finishQ, hd, List.countP_append, hh, hs, isHdrEv, isSendEv]
      · refine ⟨?_, Or.inl ?_, Or.inr ?_⟩ <;>
          simp [finishQ, hd, List.countP_append, hh, hs, isHdrEv, isSendEv]
    case dbError =>
      rcases hd : c.dataSent
      · refine ⟨?_, Or.inr ?_, Or.inl ?_⟩ <;>
          simp [finishQ, hd, List.countP_append, hh, hs, isHdrEv, isSendEv]
      · refine ⟨?_, Or.inl ?_, Or.inr ?_⟩ <;>
          simp [finishQ, hd, List.countP_append, hh, hs, isHdrEv, isSendEv]

/-- The execution tail enjoys the C2 guarantees whenever it starts with
`data_sent = false`. -/
theorem onQueryExec_c2 (env : QueryEnv) (c : QCtx) (hcd : c.dataSent = false) :
    ((onQueryExec env c).1.countP isHdrEv ≤ 1) ∧
    ((onQueryExec env c).1.countP isSendEv = 0 ∨
      (onQueryExec env c).1.countP isHdrEv = 0) ∧
    ((onQueryExec env c).1.countP isHdrEv = 0 ∨
      (onQueryExec env c).1.getLast? = some Ev.complete) := by
  have hinv := runVisits_inv env.wok env.exec.docs c 0
  rcases hrv : runVisits env.wok c 0 env.exec.docs with ⟨c1, evs1, n1, rv⟩
  rw [hrv] at hinv
  obtain ⟨hi1, _, hi3, hi4⟩ := hinv
  rw [hcd] at hi1
  simp only [Bool.false_eq_true, if_false] at hi1
  have hi1' : evs1.countP isHdrEv = if c1.dataSent then 1 else 0 := hi1
  rcases rv with _ | r
  · -- visitor loop succeeded; rc comes from the engine
    rcases herr : env.exec.err with _ | r'
    · -- success end-to-end: final flush if the buffer exists
      rcases hwb : c1.wbuf with _ | wb
      · have hexec : onQueryExec env c = finishQ c1 evs1 none [] := by
          simp [onQueryExec, hrv, herr, hwb]
        rw [hexec]
        exact finishQ_c2 c1 evs1 none [] hi4 hi1' (by simp)
      · have hfl := flushChunk_inv env.wok ⟨c1.readAnon, c1.dataSent, some (wb ++ crlf),
          c1.explain⟩ n1 true
        rcases hfc : flushChunk env.wok ⟨c1.readAnon, c1.dataSent, some (wb ++ crlf),
          c1.explain⟩ n1 true with ⟨c3, evs2, n3, r2⟩
        rw [hfc] at hfl
        obtain ⟨hf1, hf2, hf3, _, hf5⟩ := hfl
        have hexec : onQueryExec env c = finishQ c3 (evs1 ++ evs2) r2 [] := by
          simp only [onQueryExec, hrv, herr, hwb]
          rw [show ({ c1 with wbuf := some (wb ++ crlf) } : QCtx) =
            ⟨c1.readAnon, c1.dataSent, some (wb ++ crlf), c1.explain⟩ from rfl, hfc]
        rw [hexec]
        refine finishQ_c2 c3 (evs1 ++ evs2) r2 []
          (by rw [List.countP_append, hi4, hf5]) ?_ ?_
        · rw [List.countP_append, hi1', hf1]
          rcases hc1 : c1.dataSent <;> rcases hc3 : c3.dataSent <;> simp_all
        · intro hx
          have hr2 : r2 = none ∨ r2 = some Rc.sendResponse := by simpa using hf3
          rcases hr2 with h | h <;> rw [h] at hx <;> rcases hx with hx | hx <;> simp_all
    · -- the engine reported an error after the loop
      have hexec : onQueryExec env c = finishQ c1 evs1 (some r') [] := by
        simp [onQueryExec, hrv, herr]
      rw [hexec]
      refine finishQ_c2 c1 evs1 (some r') [] hi4 hi1' ?_
      intro hx
      rcases hx with hx | hx
      · exact absurd (herr.trans hx) env.exec.sound.1
      · have hdocs : env.exec.docs = [] := env.exec.sound.2 (herr.trans hx)
        rw [hdocs] at hrv
        simp [runVisits] at hrv
        rw [← hrv.1, hcd]
  · -- a visitor aborted the loop with a write error
    have hr : r = Rc.sendResponse := by
      rcases hi3 with h | h
      · exact absurd h (by simp)
      · exact Option.some.inj h
    subst hr
    have hexec : onQueryExec env c = finishQ c1 evs1 (some Rc.sendResponse) [] := by
      simp [onQueryExec, hrv]
    rw [hexec]
    exact finishQ_c2 c1 evs1 (some Rc.sendResponse) [] hi4 hi1' (by simp)

/-- C2: over any complete `_jbr_on_query` run, the chunked header block
(the only status-bearing step of the streaming path) is written at most
once; a full status-bearing response (`_jbr_http_send`, carrying the
normal 200/400/403/500) occurs only in runs where the header block was
never written (`data_sent` still false); and once the header block has
been written the run ends with `http_complete` — on a later database or
write error the handler only logs and completes the stream. -/
theorem onQuery_no_status_after_data (ra : Bool) (env : QueryEnv) :
    ((onQuery ra env).1.countP isHdrEv ≤ 1) ∧
    ((onQuery ra env).1.countP isSendEv = 0 ∨ (onQuery ra env).1.countP isHdrEv = 0) ∧
    ((onQuery ra env).1.countP isHdrEv = 0 ∨
      (onQuery ra env).1.getLast? = some Ev.complete) := by
  simp only [onQuery]
  by_cases hb : env.body.length < 1
  · simp [hb, isHdrEv, isSendEv]
  · rw [if_neg hb]
    rcases hj : env.jql with msg | hasApply
    · exact finishQ_c2 _ [] (some Rc.queryParse) msg (by simp) (by simp) (fun _ => rfl)
    · by_cases hra : ra = true ∧ hasApply = true
      · obtain ⟨h1, h2⟩ := hra
        subst h1
        subst h2
        simp [isHdrEv, isSendEv]
      · simp only [if_neg hra]
        rcases hhints : env.hints with _ | _ | v
        · exact onQueryExec_c2 env _ rfl
        · simp [isHdrEv, isSendEv]
        · exact onQueryExec_c2 env _ (by split <;> rfl)

/-! ### Explain-buffer placement and release (C7) -/

theorem finishQ_explain (c : QCtx) (evs : List Ev) (rc : Option Rc) (pm : List Char) :
    (finishQ c evs rc pm).2.explain = none := rfl

theorem onQueryExec_explain (env : QueryEnv) (c : QCtx) :
    (onQueryExec env c).2.explain = none := by
  simp only [onQueryExec]
  repeat' split
  all_goals apply finishQ_explain

/-- Every exit path of `_jbr_on_query` leaves the context with the
explain buffer released. -/
theorem onQuery_explain_released (ra : Bool) (env : QueryEnv) :
    (onQuery ra env).2.explain = none := by
  simp only [onQuery]
  by_cases hb : env.body.length < 1
  · simp [hb]
  · rw [if_neg hb]
    rcases hj : env.jql with msg | hasApply
    · exact finishQ_explain _ _ _ _
    · by_cases hra : ra = true ∧ hasApply = true
      · obtain ⟨h1, h2⟩ := hra
        subst h1
        subst h2
        simp
      · simp only [if_neg hra]
        rcases hhints : env.hints with _ | _ | v
        · exact onQueryExec_explain env _
        · rfl
        · exact onQueryExec_explain env _

theorem flushBody_allOk_skip (c : QCtx) (n : Nat) (w : List Char) (acc : List Ev)
    (hlt : w.length < JBR_HTTP_CHUNK_SIZE) :
    flushBody allOk c n false w acc = (c, acc, n, none) := by
  simp [flushBody, hlt]

theorem flushBody_allOk_emit (c : QCtx) (n : Nat) (f : Bool) (w : List Char) (acc : List Ev)
    (hcond : ¬(¬f = true ∧ w.length < JBR_HTTP_CHUNK_SIZE)) (hw : w ≠ []) :
    flushBody allOk c n f w acc =
      ({ c with wbuf := some [] },
       (acc ++ [Ev.fioWrite (hexUpper w.length ++ crlf), Ev.fioWrite w, Ev.fioWrite crlf])
         ++ (if f then [Ev.fioWrite zeroChunk] else []),
       if f then n + 4 else n + 3, none) := by
  have h0 : 0 < w.length := List.length_pos.mpr hw
  rcases f <;> simp_all [flushBody, finTerm, allOk]

theorem flushBody_allOk_empty (c : QCtx) (n : Nat) (acc : List Ev) :
    flushBody allOk c n true [] acc = (c, acc ++ [Ev.fioWrite zeroChunk], n + 1, none) := by
  simp [flushBody, finTerm, allOk]

theorem flushChunk_allOk_step (c : QCtx) (n : Nat) (f : Bool) (w : List Char)
    (hw : c.wbuf = some w) :
    flushChunk allOk c n f =
      (if c.dataSent then flushBody allOk c n f w []
       else flushBody allOk { c with dataSent := true } (n + 1) f w [Ev.writeHeaders]) := by
  rcases hd : c.dataSent <;> simp [flushChunk, hw, hd, allOk]

theorem flushBody_allOk_err (c : QCtx) (n : Nat) (f : Bool) (w : List Char) (acc : List Ev) :
    (flushBody allOk c n f w acc).2.2.2 = none := by
  unfold flushBody finTerm
  repeat' split
  all_goals simp_all [allOk]

theorem flushChunk_allOk_err (c : QCtx) (n : Nat) (f : Bool) :
    (flushChunk allOk c n f).2.2.2 = none := by
  rcases hw : c.wbuf with _ | w
  · simp [flushChunk, hw]
  · rw [flushChunk_allOk_step c n f w hw]
    rcases hd : c.dataSent <;> simp [hd, flushBody_allOk_err]

theorem queryVisitor_allOk_err (c : QCtx) (n : Nat) (d : Doc) :
    (queryVisitor allOk c n d).2.2.2 = none := by
  rcases hw : c.wbuf with _ | w <;> rcases he : c.explain with _ | e <;>
    · simp only [queryVisitor, hw, he]
      apply flushChunk_allOk_err

theorem runVisits_allOk_err (ds : List Doc) :
    ∀ (c : QCtx) (n : Nat), (runVisits allOk c n ds).2.2.2 = none := by
  induction ds with
  | nil => intro c n; rfl
  | cons d tl ih =>
    intro c n
    have hq := queryVisitor_allOk_err c n d
    rcases hqe : queryVisitor allOk c n d with ⟨c1, evs1, n1, r⟩
    rw [hqe] at hq
    simp only at hq
    subst hq
    have := ih c1 n1
    rcases hr : runVisits allOk c1 n1 tl with ⟨c2, evs2, n2, r2⟩
    rw [hr] at this
    simp only at this
    subst this
    simp [runVisits, hqe, hr]

theorem streamPre_absorb (P sb more : List Char) (w' : Option (List Char))
    (h : ∃ L t, sb = hexUpper L ++ crlf ++ P ++ t) :
    StreamPre P (sb ++ more) w' := by
  obtain ⟨L, t, hsb⟩ := h
  exact Or.inr ⟨L, t ++ more, by rw [hsb]; simp⟩

theorem streamPre_extend (P sb wb x : List Char) (h : StreamPre P sb (some wb)) :
    StreamPre P sb (some (wb ++ x)) := by
  rcases h with ⟨hsb, s, hws⟩ | hB
  · exact Or.inl ⟨hsb, s ++ x, by rw [Option.some.inj hws]; simp⟩
  · exact Or.inr hB

/-- One `_jbr_flush_chunk` call preserves the stream-prefix invariant:
either nothing is emitted and the pending prefix stays in the buffer, or
the emitted chunk starts (after its hex size line) with the pending
prefix. -/
theorem streamPre_flush (P sb w : List Char) (hP : P ≠ []) (c : QCtx) (n : Nat) (f : Bool)
    (hw : c.wbuf = some w) (hpre : StreamPre P sb (some w)) :
    StreamPre P (sb ++ socketBytes (flushChunk allOk c n f).2.1)
      ((flushChunk allOk c n f).1.wbuf) := by
  rcases hpre with ⟨hsb, s, hws⟩ | hB
  · have hwP : w = P ++ s := Option.some.inj hws
    subst hsb
    rw [flushChunk_allOk_step c n f w hw]
    by_cases hth : ¬f = true ∧ w.length < JBR_HTTP_CHUNK_SIZE
    · have hf : f = false := by rcases f <;> simp_all
      subst hf
      rcases hd : c.dataSent <;>
        · simp only [hd, if_true, if_false, Bool.false_eq_true]
          rw [flushBody_allOk_skip _ _ _ _ hth.2]
          exact Or.inl ⟨by simp [socketBytes], s, by simp [hw, hwP]⟩
    · have hwne : w ≠ [] := by
        rw [hwP]
        intro hcon
        exact hP (List.append_eq_nil.mp hcon).1
      rcases hd : c.dataSent <;>
        · simp only [hd, if_true, if_false, Bool.false_eq_true]
          rw [flushBody_allOk_emit _ _ _ _ _ hth hwne]
          refine Or.inr ⟨w.length, s ++ crlf ++ (if f then zeroChunk else []), ?_⟩
          rcases f <;>
            simp [socketBytes_append, socketBytes, hwP, List.append_assoc]
  · exact streamPre_absorb P sb _ _ hB

/-- The finish-marked flush always leaves the stream in the
emitted-prefix state: the first chunk on the socket starts with the
pending prefix after its hex size line. -/
theorem streamPre_flush_final (P sb w : List Char) (hP : P ≠ []) (c : QCtx) (n : Nat)
    (hw : c.wbuf = some w) (hpre : StreamPre P sb (some w)) :
    ∃ L t, sb ++ socketBytes (flushChunk allOk c n true).2.1 =
      hexUpper L ++ crlf ++ P ++ t := by
  rcases hpre with ⟨hsb, s, hws⟩ | hB
  · have hwP : w = P ++ s := Option.some.inj hws
    subst hsb
    rw [flushChunk_allOk_step c n true w hw]
    have hth : ¬(¬(true : Bool) = true ∧ w.length < JBR_HTTP_CHUNK_SIZE) := by simp
    have hwne : w ≠ [] := by
      rw [hwP]
      intro hcon
      exact hP (List.append_eq_nil.mp hcon).1
    rcases hd : c.dataSent <;>
      · simp only [hd, if_true, if_false, Bool.false_eq_true]
        rw [flushBody_allOk_emit _ _ _ _ _ hth hwne]
        refine ⟨w.length, s ++ crlf ++ zeroChunk, ?_⟩
        simp [socketBytes_append, socketBytes, hwP, List.append_assoc]
  · obtain ⟨L, t, hsb⟩ := hB
    exact ⟨L, t ++ socketBytes (flushChunk allOk c n true).2.1, by rw [hsb]; simp⟩

/-- The visitor preserves the stream-prefix invariant once the explain
buffer has been flushed. -/
theorem streamPre_visit (P sb : List Char) (hP : P ≠ []) (c : QCtx) (n : Nat) (d : Doc)
    (he : c.explain = none) (hpre : StreamPre P sb c.wbuf) :
    StreamPre P (sb ++ socketBytes (queryVisitor allOk c n d).2.1)
      ((queryVisitor allOk c n d).1.wbuf) := by
  rcases hw : c.wbuf with _ | w
  · rw [hw] at hpre
    rcases hpre with ⟨hsb, s, hws⟩ | hB
    · exact absurd hws (by simp)
    · exact streamPre_absorb P sb _ _ hB
  · have hq : queryVisitor allOk c n d =
        flushChunk allOk ⟨c.readAnon, c.dataSent, some (w ++ frame d), none⟩ n false := by
      simp [queryVisitor, hw, he]
    rw [hq]
    rw [hw] at hpre
    exact streamPre_flush P sb (w ++ frame d) hP _ n false rfl
      (streamPre_extend P sb w (frame d) hpre)

theorem flushBody_wbuf (wok : Nat → Bool) (c : QCtx) (n : Nat) (f : Bool) (w : List Char)
    (acc : List Ev) :
    (flushBody wok c n f w acc).1.wbuf = c.wbuf ∨
    (flushBody wok c n f w acc).1.wbuf = some [] := by
  unfold flushBody
  repeat' split
  all_goals first
    | exact Or.inl rfl
    | exact Or.inr rfl
    | (rw [finTerm_ctx]; first | exact Or.inl rfl | exact Or.inr rfl)

/-- The assembly buffer, once allocated, stays allocated across a flush. -/
theorem flushChunk_wbuf_some (wok : Nat → Bool) (c : QCtx) (n : Nat) (f : Bool)
    (w : List Char) (hw : c.wbuf = some w) :
    ∃ w', (flushChunk wok c n f).1.wbuf = some w' := by
  rcases hd : c.dataSent
  · rcases hk : wok n
    · refine ⟨w, ?_⟩
      simp [flushChunk, hw, hd, hk]
    · have hb := flushBody_wbuf wok ⟨c.readAnon, true, some w, c.explain⟩ (n + 1) f w
        [Ev.writeHeaders]
      simp [flushChunk, hw, hd, hk]
      rcases hb with h | h
      · exact ⟨w, by rw [h]⟩
      · exact ⟨[], h⟩
  · have hb := flushBody_wbuf wok c n f w []
    simp [flushChunk, hw, hd]
    rcases hb with h | h
    · exact ⟨w, by rw [h, hw]⟩
    · exact ⟨[], h⟩

theorem queryVisitor_wbuf_some (wok : Nat → Bool) (c : QCtx) (n : Nat) (d : Doc) :
    ∃ w', (queryVisitor wok c n d).1.wbuf = some w' := by
  rcases hw : c.wbuf with _ | w <;> rcases he : c.explain with _ | e <;>
    · simp only [queryVisitor, hw, he]
      apply flushChunk_wbuf_some
      rfl

/-- The visitor loop preserves the stream-prefix invariant, keeps the
explain buffer released and the assembly buffer allocated. -/
theorem streamPre_runVisits (P : List Char) (hP : P ≠ []) (ds : List Doc) :
    ∀ (c : QCtx) (n : Nat) (sb : List Char), c.explain = none →
    (∃ w, c.wbuf = some w) → StreamPre P sb c.wbuf →
    StreamPre P (sb ++ socketBytes (runVisits allOk c n ds).2.1)
      ((runVisits allOk c n ds).1.wbuf) ∧
    (runVisits allOk c n ds).1.explain = none ∧
    (∃ w', (runVisits allOk c n ds).1.wbuf = some w') := by
  induction ds with
  | nil =>
    intro c n sb he hsome hpre
    refine ⟨?_, he, hsome⟩
    simpa [runVisits, socketBytes] using hpre
  | cons d tl ih =>
    intro c n sb he hsome hpre
    have hq := queryVisitor_allOk_err c n d
    have hqi := (queryVisitor_inv allOk c n d).2.2.2.1
    have hqw := queryVisitor_wbuf_some allOk c n d
    have hqs := streamPre_visit P sb hP c n d he hpre
    rcases hqe : queryVisitor allOk c n d with ⟨c1, evs1, n1, r⟩
    rw [hqe] at hq hqi hqw hqs
    simp only at hq hqi hqw hqs
    subst hq
    have hrun : runVisits allOk c n (d :: tl) =
        (fun x => ((runVisits allOk c1 n1 tl).1, evs1 ++ (runVisits allOk c1 n1 tl).2.1,
          (runVisits allOk c1 n1 tl).2.2.1, (runVisits allOk c1 n1 tl).2.2.2)) () := by
      rcases hr : runVisits allOk c1 n1 tl with ⟨c2, evs2, n2, r2⟩
      simp [runVisits, hqe, hr]
    obtain ⟨hs1, hs2, hs3⟩ := ih c1 n1 (sb ++ socketBytes evs1) hqi hqw hqs
    rw [hrun]
    refine ⟨?_, hs2, hs3⟩
    simpa [socketBytes_append, List.append_assoc] using hs1

/-- On its first call with a pending explain buffer, the visitor moves
the explain text and the separator line into the assembly buffer ahead
of the first document frame. -/
theorem queryVisitor_first_explain (wok : Nat → Bool) (ra ds0 : Bool) (e : List Char)
    (n : Nat) (d : Doc) :
    queryVisitor wok ⟨ra, ds0, none, some e⟩ n d =
      flushChunk wok ⟨ra, ds0, some (e ++ sepLine ++ frame d), none⟩ n false := by
  simp [queryVisitor]

/-- The finish block writes nothing to the socket beyond the events it
was handed. -/
theorem finishQ_socketBytes (c : QCtx) (evs : List Ev) (rc : Option Rc) (pm : List Char) :
    socketBytes (finishQ c evs rc pm).1 = socketBytes evs := by
  rcases rc with _ | r
  · rcases hd : c.dataSent <;> simp [finishQ, hd, socketBytes_append, socketBytes]
  · rcases r <;> rcases hd : c.dataSent <;>
      simp [finishQ, hd, socketBytes_append, socketBytes]

/-- C7: for a query carrying the explain hint whose execution succeeds
after visiting at least one document, the socket stream opens with a
hex chunk-size line followed immediately by the explain buffer's
contents, the 20-byte separator line, and only then the first document
frame — the explain block occupies the first bytes of the first chunk;
and on every exit path of `_jbr_on_query` the explain buffer of the
final context has been released. -/
theorem explain_first_chunk_and_release (ra : Bool) (bodyc e v : List Char)
    (d : Doc) (rest : List Doc) (exec : ExecSpec) (hb : bodyc ≠ [])
    (hv : isSubstr explainLit v = true) (hdocs : exec.docs = d :: rest)
    (herr : exec.err = none) :
    (∃ L t, socketBytes (onQuery ra ⟨bodyc, JqlResult.ok false, HintsHdr.str v, e,
        exec, allOk⟩).1 = hexUpper L ++ crlf ++ (e ++ sepLine ++ frame d) ++ t) ∧
    (∀ (ra' : Bool) (env' : QueryEnv), (onQuery ra' env').2.explain = none) := by
  refine ⟨?_, onQuery_explain_released⟩
  have hlen : ¬(bodyc.length < 1) := by
    have : bodyc.length ≠ 0 := fun h => hb (List.length_eq_zero.mp h)
    omega
  have hred : onQuery ra ⟨bodyc, JqlResult.ok false, HintsHdr.str v, e, exec, allOk⟩ =
      onQueryExec ⟨bodyc, JqlResult.ok false, HintsHdr.str v, e, exec, allOk⟩
        ⟨ra, false, none, some e⟩ := by
    simp [onQuery, hlen, hv]
  rw [hred]
  have hP : (e ++ sepLine ++ frame d) ≠ [] := by
    intro hcon
    have := congrArg List.length hcon
    simp [sepLine] at this
  -- first visitor call
  have h1 : StreamPre (e ++ sepLine ++ frame d)
      (socketBytes (queryVisitor allOk ⟨ra, false, none, some e⟩ 0 d).2.1)
      ((queryVisitor allOk ⟨ra, false, none, some e⟩ 0 d).1.wbuf) := by
    rw [queryVisitor_first_explain]
    have hs := streamPre_flush (e ++ sepLine ++ frame d) []
      (e ++ sepLine ++ frame d) hP ⟨ra, false, some (e ++ sepLine ++ frame d), none⟩
      0 false rfl (Or.inl ⟨rfl, [], by simp⟩)
    simpa using hs
  have hqi := (queryVisitor_inv allOk ⟨ra, false, none, some e⟩ 0 d).2.2.2.1
  have hqe := queryVisitor_allOk_err ⟨ra, false, none, some e⟩ 0 d
  have hqw := queryVisitor_wbuf_some allOk ⟨ra, false, none, some e⟩ 0 d
  rcases hA : queryVisitor allOk ⟨ra, false, none, some e⟩ 0 d with ⟨cA, evsA, nA, rA⟩
  rw [hA] at h1 hqi hqe hqw
  simp only at h1 hqi hqe hqw
  subst hqe
  -- rest of the visitor loop
  obtain ⟨hs1, hs2, hs3⟩ := streamPre_runVisits (e ++ sepLine ++ frame d) hP rest
    cA nA (socketBytes evsA) hqi hqw h1
  have hre := runVisits_allOk_err rest cA nA
  rcases hB : runVisits allOk cA nA rest with ⟨cB, evsB, nB, rB⟩
  rw [hB] at hs1 hs2 hs3 hre
  simp only at hs1 hs2 hs3 hre
  subst hre
  obtain ⟨wB, hwB⟩ := hs3
  -- the whole loop
  have hloop : runVisits allOk ⟨ra, false, none, some e⟩ 0 (d :: rest) =
      (cB, evsA ++ evsB, nB, none) := by
    simp [runVisits, hA, hB]
  -- the final flush
  have hfin := streamPre_flush_final (e ++ sepLine ++ frame d)
    (socketBytes evsA ++ socketBytes evsB) (wB ++ crlf) hP
    ⟨cB.readAnon, cB.dataSent, some (wB ++ crlf), cB.explain⟩ nB rfl
    (streamPre_extend _ _ _ _ (by rw [← hwB]; exact hs1))
  rcases hF : flushChunk allOk ⟨cB.readAnon, cB.dataSent, some (wB ++ crlf), cB.explain⟩
      nB true with ⟨c3, evs2, n3, r2⟩
  rw [hF] at hfin
  simp only at hfin
  obtain ⟨L, t, heq⟩ := hfin
  refine ⟨L, t, ?_⟩
  have hexec : onQueryExec ⟨bodyc, JqlResult.ok false, HintsHdr.str v, e, exec, allOk⟩
      ⟨ra, false, none, some e⟩ = finishQ c3 ((evsA ++ evsB) ++ evs2) r2 [] := by
    simp only [onQueryExec, hdocs, hloop, herr, hwB]
    rw [show ({ cB with wbuf := some (wB ++ crlf) } : QCtx) =
      ⟨cB.readAnon, cB.dataSent, some (wB ++ crlf), cB.explain⟩ from rfl, hF]
  rw [hexec, finishQ_socketBytes]
  rw [socketBytes_append, socketBytes_append]
  rw [← heq]

/-- Closed instantiation of `explain_first_chunk_and_release`: explain
text `"E"`, one result document with id 1 and body `7`. -/
theorem explain_first_chunk_witness :
    (∃ L t, socketBytes (onQuery false ⟨['q'], JqlResult.ok false,
        HintsHdr.str ("explain".toList), ['E'],
        ⟨[⟨1, ['7']⟩], none, by simp⟩, allOk⟩).1 =
      hexUpper L ++ crlf ++ (['E'] ++ sepLine ++ frame ⟨1, ['7']⟩) ++ t) ∧
    (∀ (ra' : Bool) (env' : QueryEnv), (onQuery ra' env').2.explain = none) :=
  explain_first_chunk_and_release false ['q'] ['E'] "explain".toList ⟨1, ['7']⟩ []
    ⟨[⟨1, ['7']⟩], none, by simp⟩ (by decide) (by decide) rfl rfl

end Jbr
